import Mathlib

/-!
Shallow embedding of the OpenStack `nova.py` inventory script
(`plugins/inventory/nova.py`) and proofs about its data-reshaping logic:
the address selector `get_ips`, the metadata flattener `get_metadata`,
the group sanitizer `to_safe`, the `push` helper, and the two CLI modes
(`--list` and `--host`).

Modelling conventions:
  * Python strings are Lean `String`s; a "falsy" string is `""`.
  * `None`-or-string values are `Option String`; Python truthiness of such
    a value is the `truthy` function below.
  * Python dicts are association lists, with first-match lookup and
    update-in-place-or-append semantics (`pushAux`, `assocSetHV`,
    `assocSetS`), which matches dict lookup/update observably.
  * Dict iteration order is the association-list order.
  * The list-mode `groups` dict holds values of two shapes — address lists
    and the initial `_meta` entry — modelled by the sum type `GroupsVal`;
    fallible operations on it return `Option`, with `none` for an uncaught
    exception, such as the AttributeError a `push` raises on the reserved
    `_meta` key.
  * Process-global state (`prefer_private`, the server list returned by
    `client.servers.list()`) is passed explicitly as arguments.
-/

set_option autoImplicit false

namespace Nova

/-- One entry of a server's `addresses` lists: `addr` is the IP string and
`typeTag` models `address.get('OS-EXT-IPS:type', False)` — `none` when the
key is missing (the Python default `False` compares unequal to any string). -/
structure AddressEntry where
  typeTag : Option String
  addr : String
deriving DecidableEq, Repr

/-- A server record as the script consumes it: `name`, `accessIPv4`
(`""` models an empty or absent value), `addresses` (network name to entry
list), `metadata` (string map), and `attrs`, the attribute bag `vars(server)`
that `get_metadata` iterates (values modelled as strings, passed through
opaquely). -/
structure Server where
  name : String
  accessIPv4 : String
  addresses : List (String × List AddressEntry)
  metadata : List (String × String)
  attrs : List (String × String)
deriving DecidableEq, Repr

/-- Python truthiness of a `None`-or-string value. -/
def truthy : Option String → Bool
  | none => false
  | some s => !(s == "")

/-- `to_safe`: `re.sub(r"[^A-Za-z0-9\-]", "_", word)` — every character that
is not ASCII alphanumeric and not a hyphen becomes an underscore. -/
def safeChar (c : Char) : Bool := c.isAlphanum || c == '-'

def to_safe (word : String) : String :=
  String.mk (word.toList.map (fun c => if safeChar c then c else '_'))

/-- A value of the list-mode `groups` dict: either an ordinary group's
address list, or the reserved `_meta` entry. The script initializes `groups`
as a dict whose `_meta` key maps to an inner dict with the single key
`hostvars`; no code path ever adds another key to that inner dict or
replaces it, so the `meta` constructor carries the hostvars map directly. -/
inductive GroupsVal where
  | addrs (addresses : List String)
  | meta (hostvars : List (Option String × List (String × String)))
deriving DecidableEq, Repr

/-- The list-mode `groups` dict, keys in insertion order. -/
abbrev Groups := List (String × GroupsVal)

/-- The initial `groups` dict: only the `_meta` entry with empty hostvars. -/
def initGroups : Groups := [("_meta", GroupsVal.meta [])]

/-- First-match lookup of a raw `groups` dict value. -/
def lookupVal : Groups → String → Option GroupsVal
  | [], _ => none
  | p :: rest, k => if p.1 = k then some p.2 else lookupVal rest k

/-- The address list recorded under a group key; a missing key — or the
reserved `_meta` entry, which holds no address list — reads as `[]`. -/
def lookupGroup : Groups → String → List String
  | [], _ => []
  | p :: rest, g =>
      if p.1 = g then
        match p.2 with
        | GroupsVal.addrs l => l
        | GroupsVal.meta _ => []
      else lookupGroup rest g

/-- Helper for `push` once key and element are truthy: Python
`data[key].append(element)` when `key` is present — which raises
AttributeError (modelled as `none`) when the present value is the `_meta`
dict rather than a list — else `data[key] = [element]` at the end. -/
def pushAux : Groups → String → String → Option Groups
  | [], key, e => some [(key, GroupsVal.addrs [e])]
  | p :: rest, key, e =>
      if p.1 = key then
        (match p.2 with
         | GroupsVal.addrs l => some ((p.1, GroupsVal.addrs (l ++ [e])) :: rest)
         | GroupsVal.meta _ => none)
      else (pushAux rest key e).map (fun r => p :: r)

/-- `push(data, key, element)`: returns `data` unchanged when the element or
the key is falsy, otherwise appends the element to the key's list — a crash
(`none`) when that key is the dict's reserved `_meta` entry. -/
def push (data : Groups) (key : String) (element : Option String) : Option Groups :=
  if truthy element = false ∨ key = "" then some data
  else
    match element with
    | none => some data
    | some e => pushAux data key e

/-- The classification loop body of `get_ips`: `fixed` addresses go to the
private list, `floating` to the public list, anything else is ignored. -/
def classifyStep (acc : List String × List String) (address : AddressEntry) :
    List String × List String :=
  if address.typeTag = some "fixed" then (acc.1 ++ [address.addr], acc.2)
  else if address.typeTag = some "floating" then (acc.1, acc.2 ++ [address.addr])
  else acc

/-- All address entries of a server, networks flattened in iteration order. -/
def allEntries (server : Server) : List AddressEntry :=
  (server.addresses.map Prod.snd).flatten

/-- The `(private, public)` pair built by the loop at the top of `get_ips`. -/
def classifyAddresses (server : Server) : List String × List String :=
  (allEntries server).foldl classifyStep ([], [])

def privateIps (server : Server) : List String := (classifyAddresses server).1

def publicIps (server : Server) : List String := (classifyAddresses server).2

/-- The access-address selector branch of `get_ips` (the `access_ip=True`
path): start from `None`; take a non-empty `accessIPv4` verbatim; else the
join of the public addresses unless private addresses exist and
`prefer_private` is set; else the join of the private addresses when the
value so far is still falsy. -/
def get_ips (prefer_private : Bool) (server : Server) : Option String :=
  let priv := privateIps server
  let pub := publicIps server
  let access1 : Option String :=
    if server.accessIPv4 ≠ "" then some server.accessIPv4 else none
  let access2 : Option String :=
    if truthy access1 = false ∧ pub ≠ [] ∧ ¬(priv ≠ [] ∧ prefer_private = true) then
      some (String.join pub)
    else access1
  if priv ≠ [] ∧ truthy access2 = false then some (String.join priv) else access2

/-- Dict update for string keys: overwrite in place, or append a new entry. -/
def assocSetS : List (String × String) → String → String → List (String × String)
  | [], k, v => [(k, v)]
  | p :: rest, k, v => if p.1 = k then (k, v) :: rest else p :: assocSetS rest k v

/-- ASCII lowercasing, character by character (Python `str.lower()`). -/
def lowerStr (s : String) : String := String.mk (s.toList.map Char.toLower)

/-- The key rewrite of `get_metadata`:
`'os_' + re.sub(r"[^A-Za-z0-9\-]", "_", key).lower()`. -/
def metaKey (key : String) : String := "os_" ++ lowerStr (to_safe key)

/-- `get_metadata(server)`: flatten the attribute bag into a dict, rewriting
each key with `metaKey` and skipping any attribute whose rewritten key is
`os_manager`. -/
def get_metadata (server : Server) : List (String × String) :=
  server.attrs.foldl
    (fun results kv =>
      if metaKey kv.1 = "os_manager" then results else assocSetS results (metaKey kv.1) kv.2)
    []

/-- First-match lookup in a string dict. -/
def lookupStr : List (String × String) → String → Option String
  | [], _ => none
  | p :: rest, k => if p.1 = k then some p.2 else lookupStr rest k

/-- `server.metadata['group'] if 'group' in server.metadata else 'undefined'`. -/
def groupName (server : Server) : String :=
  match lookupStr server.metadata "group" with
  | some g => g
  | none => "undefined"

/-- The sanitized tag-group key `to_safe('tag_' + key + '_' + value)`. -/
def tagKey (kv : String × String) : String := to_safe ("tag_" ++ kv.1 ++ "_" ++ kv.2)

/-- Dict update for the hostvars map, whose keys are the possibly-`None`
access addresses. -/
def assocSetHV :
    List (Option String × List (String × String)) → Option String → List (String × String) →
      List (Option String × List (String × String))
  | [], k, v => [(k, v)]
  | p :: rest, k, v => if p.1 = k then (k, v) :: rest else p :: assocSetHV rest k v

/-- First-match lookup in the hostvars map. -/
def lookupHV :
    List (Option String × List (String × String)) → Option String →
      Option (List (String × String))
  | [], _ => none
  | p :: rest, k => if p.1 = k then some p.2 else lookupHV rest k

/-- `groups['_meta']['hostvars'][access_ip] = metadata`: rewrite the first
`_meta` entry's hostvars map in place; `none` (an uncaught KeyError or
TypeError) when `_meta` is missing or does not hold the meta dict — states
unreachable from `initGroups`, since `push` never removes or retypes it. -/
def setHostvar : Groups → Option String → List (String × String) → Option Groups
  | [], _, _ => none
  | p :: rest, k, md =>
      if p.1 = "_meta" then
        (match p.2 with
         | GroupsVal.meta hv => some ((p.1, GroupsVal.meta (assocSetHV hv k md)) :: rest)
         | GroupsVal.addrs _ => none)
      else (setHostvar rest k md).map (fun r => p :: r)

/-- Read `groups['_meta']['hostvars']` of a groups dict. -/
def getHostvars (data : Groups) : Option (List (Option String × List (String × String))) :=
  match lookupVal data "_meta" with
  | some (GroupsVal.meta hv) => some hv
  | _ => none

/-- Invariant of every groups dict the script can build: the only key whose
value is the `_meta` dict is `_meta` itself. -/
def metaOnlyAtMeta (data : Groups) : Bool :=
  data.all (fun p =>
    match p.2 with
    | GroupsVal.meta _ => p.1 == "_meta"
    | GroupsVal.addrs _ => true)

/-- One iteration of the `--list` loop: push the access address into the
name group, each sanitized tag group, and the metadata group (default
`undefined`), then record the flattened metadata under the access address;
`none` models the uncaught AttributeError raised when a push hits the
reserved `_meta` key. -/
def listModeStep (prefer_private : Bool) (data : Groups) (server : Server) : Option Groups :=
  let access_ip := get_ips prefer_private server
  match push data server.name access_ip with
  | none => none
  | some g1 =>
      match List.foldlM (fun g kv => push g (tagKey kv) access_ip) g1 server.metadata with
      | none => none
      | some g2 =>
          match push g2 (groupName server) access_ip with
          | none => none
          | some g3 => setHostvar g3 access_ip (get_metadata server)

/-- The whole `--list` branch over the adapter-returned server list: the
final groups dict, or `none` when some iteration crashed. -/
def run_list (prefer_private : Bool) (servers : List Server) : Option Groups :=
  List.foldlM (listModeStep prefer_private) initGroups servers

/-- Substring containment, Python's `needle in haystack` on strings. -/
def isInfixStr (needle haystack : String) : Bool :=
  decide (needle.toList <:+: haystack.toList)

/-- The match test of the `--host` loop:
`sys.argv[2] in (get_ips(server) or [])`. A falsy selector result (`None` or
`""`) turns the right side into the empty list, which contains nothing;
otherwise it is a substring test on the address string. -/
def pyMatch (query : String) (access : Option String) : Bool :=
  match access with
  | none => false
  | some s => if s = "" then false else isInfixStr query s

/-- The `--host` branch: start from `{}` and overwrite the result with the
flattened metadata of every matching server in order. -/
def host_branch (prefer_private : Bool) (servers : List Server) (query : String) :
    List (String × String) :=
  servers.foldl
    (fun results s =>
      if pyMatch query (get_ips prefer_private s) then get_metadata s else results)
    []

/-- The observable outcome of a run: which document is printed and the exit
code, or `crashed` for an uncaught exception (traceback, non-zero exit, no
JSON emitted). -/
inductive Outcome where
  | inventory (doc : Groups) (exitCode : Nat)
  | hostdoc (doc : List (String × String)) (exitCode : Nat)
  | usage (message : String) (exitCode : Nat)
  | crashed
deriving DecidableEq, Repr

def usage_message : String := "usage: --list  ..OR.. --host <hostname>"

/-- The argument dispatch at the bottom of the script, on the full `sys.argv`
(index 0 is the program name): `--list` or no arguments runs list mode and
exits 0; `--host` plus one argument runs host mode and exits 0; anything else
prints the usage line and exits 1. -/
def main_dispatch (prefer_private : Bool) (servers : List Server) (argv : List String) :
    Outcome :=
  if (argv.length = 2 ∧ argv.getD 1 "" = "--list") ∨ argv.length = 1 then
    match run_list prefer_private servers with
    | some doc => Outcome.inventory doc 0
    | none => Outcome.crashed
  else if argv.length = 3 ∧ argv.getD 1 "" = "--host" then
    Outcome.hostdoc (host_branch prefer_private servers (argv.getD 2 "")) 0
  else Outcome.usage usage_message 1

end Nova

namespace Nova

/-! ### Concrete test data used by witnesses and counterexamples -/

/-- A server with a declared `accessIPv4` and competing address lists. -/
def srvAccess : Server :=
  ⟨"api1", "10.0.0.1", [("net", [⟨some "fixed", "192.168.0.4"⟩, ⟨some "floating", "8.8.8.8"⟩])],
    [("group", "web")], [("id", "1")]⟩

/-- A server with no `accessIPv4`, one empty-string floating address and one
fixed address. -/
def srvEmptyFloating : Server :=
  ⟨"s", "", [("net", [⟨some "floating", ""⟩, ⟨some "fixed", "10.0.0.1"⟩])], [], []⟩

/-! ### The sanitizer `to_safe` -/

theorem toList_to_safe (s : String) :
    (to_safe s).toList = s.toList.map (fun c => if safeChar c then c else '_') := rfl

/-- C7: the sanitizer's output contains only ASCII alphanumerics, hyphen and
underscore, and sanitizing twice equals sanitizing once. -/
theorem to_safe_char_class_idempotent (s : String) :
    (∀ c ∈ (to_safe s).toList, c.isAlphanum = true ∨ c = '-' ∨ c = '_') ∧
      to_safe (to_safe s) = to_safe s := by
  constructor
  · intro c hc
    rw [toList_to_safe] at hc
    rcases List.mem_map.mp hc with ⟨a, _, ha⟩
    by_cases h : safeChar a = true
    · rw [if_pos h] at ha
      subst ha
      rcases Bool.or_eq_true_iff.mp h with h1 | h1
      · exact Or.inl h1
      · exact Or.inr (Or.inl (by simpa using h1))
    · rw [if_neg h] at ha
      exact Or.inr (Or.inr ha.symm)
  · have hf : ∀ c : Char,
        (if safeChar (if safeChar c then c else '_') then (if safeChar c then c else '_') else '_')
          = (if safeChar c then c else '_') := by
      intro c
      by_cases h : safeChar c = true
      · simp [h]
      · simp [h, show safeChar '_' = false from by decide]
    have hcomp :
        ((fun c : Char => if safeChar c then c else '_') ∘
            fun c : Char => if safeChar c then c else '_') =
          fun c : Char => if safeChar c then c else '_' := by
      funext c
      exact hf c
    simp only [to_safe, String.toList]
    rw [List.map_map, hcomp]

/-! ### Address classification inside `get_ips` -/

theorem foldl_classifyStep (l : List AddressEntry) (p q : List String) :
    l.foldl classifyStep (p, q) =
      (p ++ (l.filter (fun e => decide (e.typeTag = some "fixed"))).map AddressEntry.addr,
       q ++ (l.filter (fun e => decide (e.typeTag = some "floating"))).map AddressEntry.addr) := by
  induction l generalizing p q with
  | nil => simp
  | cons e rest ih =>
      by_cases h1 : e.typeTag = some "fixed"
      · simp [classifyStep, h1, ih]
      · by_cases h2 : e.typeTag = some "floating"
        · simp [classifyStep, h1, h2, ih]
        · simp [classifyStep, h1, h2, ih]

/-- C8: an address entry is classified as private exactly when its type tag
is `fixed` and as public exactly when it is `floating`; entries with any
other or missing tag reach neither list. -/
theorem classification_fixed_floating (s : Server) :
    privateIps s =
        ((allEntries s).filter (fun e => decide (e.typeTag = some "fixed"))).map
          AddressEntry.addr ∧
      publicIps s =
        ((allEntries s).filter (fun e => decide (e.typeTag = some "floating"))).map
          AddressEntry.addr := by
  unfold privateIps publicIps classifyAddresses
  rw [foldl_classifyStep]
  simp

/-! ### The address selector `get_ips` -/

/-- C4: a server with a non-empty `accessIPv4` gets exactly that value,
whatever its address lists and the prefer-private flag are. -/
theorem get_ips_accessIPv4_verbatim (prefer_private : Bool) (s : Server)
    (h : s.accessIPv4 ≠ "") : get_ips prefer_private s = some s.accessIPv4 := by
  simp [get_ips, truthy, h]

/-- Witness for C4 at a concrete server. -/
theorem get_ips_accessIPv4_verbatim_witness :
    srvAccess.accessIPv4 ≠ "" ∧ get_ips true srvAccess = some "10.0.0.1" :=
  ⟨by decide, get_ips_accessIPv4_verbatim true srvAccess (by decide)⟩

end Nova

namespace Nova

/-- A server with no `accessIPv4` and only one fixed address. -/
def srvFixedOnly : Server :=
  ⟨"db1", "", [("net", [⟨some "fixed", "10.0.0.2"⟩])], [], [("id", "2")]⟩

/-- The selector for servers without `accessIPv4` exactly as the
specification phrases it: the concatenation of all floating addresses when
any exists and prefer-private does not divert, else the concatenation of all
fixed addresses when any exists, else absent. Written from the spec's words,
for comparison against `get_ips`. -/
def specSelectorNoAccess (prefer_private : Bool) (s : Server) : Option String :=
  if publicIps s ≠ [] ∧ ¬(privateIps s ≠ [] ∧ prefer_private = true) then
    some (String.join (publicIps s))
  else if privateIps s ≠ [] then some (String.join (privateIps s))
  else none

/-- Counterexample to C3 as stated: a server whose only floating address is
the empty string and which also has a fixed address. The spec's selector
returns the floating concatenation `""`, but `get_ips` falls through to the
fixed concatenation because the floating concatenation is falsy. -/
theorem get_ips_no_access_counterexample :
    get_ips false srvEmptyFloating = some "10.0.0.1" ∧
      specSelectorNoAccess false srvEmptyFloating = some "" ∧
      get_ips false srvEmptyFloating ≠ specSelectorNoAccess false srvEmptyFloating := by
  decide

/-- The selector for servers without `accessIPv4` as the code actually
behaves: the floating branch result is kept only while it is truthy — when
the floating concatenation is the empty string and fixed addresses exist,
the fixed concatenation wins. -/
def amendedSelectorNoAccess (prefer_private : Bool) (s : Server) : Option String :=
  if publicIps s ≠ [] ∧ ¬(privateIps s ≠ [] ∧ prefer_private = true) then
    if String.join (publicIps s) = "" ∧ privateIps s ≠ [] then
      some (String.join (privateIps s))
    else some (String.join (publicIps s))
  else if privateIps s ≠ [] then some (String.join (privateIps s))
  else none

/-- C3 (amended): for every server with empty `accessIPv4`, `get_ips` agrees
with `amendedSelectorNoAccess`: floating concatenation when the floating
branch applies and its concatenation is truthy, fixed concatenation when the
floating result is falsy or the floating branch does not apply and fixed
addresses exist, otherwise a falsy result. -/
theorem get_ips_no_access_amended (prefer_private : Bool) (s : Server)
    (h : s.accessIPv4 = "") :
    get_ips prefer_private s = amendedSelectorNoAccess prefer_private s := by
  unfold get_ips amendedSelectorNoAccess
  simp only [h, ne_eq, not_true_eq_false, if_false, reduceIte]
  split_ifs with h1 h2 h3 h4 h5 <;> simp_all [truthy]

/-- Witness for the amended C3 at a concrete fixed-only server. -/
theorem get_ips_no_access_amended_witness :
    srvFixedOnly.accessIPv4 = "" ∧
      get_ips false srvFixedOnly = amendedSelectorNoAccess false srvFixedOnly :=
  ⟨rfl, get_ips_no_access_amended false srvFixedOnly rfl⟩

end Nova

namespace Nova

/-! ### `push` and group bookkeeping -/

theorem truthy_some (x : String) : truthy (some x) = !(x == "") := rfl

theorem push_falsy (data : Groups) (k : String) (el : Option String)
    (h : truthy el = false) : push data k el = some data := by
  simp [push, h]

theorem push_some_truthy (data : Groups) (k a : String) (ha : a ≠ "") (hk : k ≠ "") :
    push data k (some a) = pushAux data k a := by
  simp [push, truthy, ha, hk]

theorem pushAux_lookup (k a : String) (hk : k ≠ "_meta") :
    ∀ data : Groups, metaOnlyAtMeta data = true →
      ∃ d', pushAux data k a = some d' ∧
        metaOnlyAtMeta d' = true ∧
        lookupVal d' "_meta" = lookupVal data "_meta" ∧
        ∀ g, lookupGroup d' g =
          if g = k then lookupGroup data g ++ [a] else lookupGroup data g
  | [], _ => by
      refine ⟨[(k, GroupsVal.addrs [a])], rfl, rfl, ?_, ?_⟩
      · simp [lookupVal, hk]
      · intro g
        by_cases hg : g = k
        · simp [lookupGroup, hg]
        · simp [lookupGroup, hg, Ne.symm hg]
  | p :: rest, hwf => by
      rw [metaOnlyAtMeta, List.all_cons, Bool.and_eq_true] at hwf
      obtain ⟨hp, hrest⟩ := hwf
      by_cases hpk : p.1 = k
      · cases hv2 : p.2 with
        | meta hv =>
            rw [hv2] at hp
            exact absurd (hpk.symm.trans (by simpa using hp)) hk
        | addrs l =>
            refine ⟨(p.1, GroupsVal.addrs (l ++ [a])) :: rest, ?_, ?_, ?_, ?_⟩
            · simp [pushAux, hpk, hv2]
            · rw [metaOnlyAtMeta, List.all_cons]
              simp [hrest]
            · have hpm : ¬p.1 = "_meta" := fun hh => hk (hpk.symm.trans hh)
              simp [lookupVal, hpm]
            · intro g
              by_cases hg : p.1 = g
              · have hgk : g = k := hg ▸ hpk
                simp [lookupGroup, hg, hv2, hgk]
              · have hgk : ¬g = k := fun hh => hg (hpk.symm ▸ hh.symm ▸ rfl)
                simp [lookupGroup, hg, hgk]
      · obtain ⟨r', hr, hwfr, hlv, hlg⟩ := pushAux_lookup k a hk rest hrest
        refine ⟨p :: r', ?_, ?_, ?_, ?_⟩
        · simp [pushAux, hpk, hr]
        · rw [metaOnlyAtMeta, List.all_cons, Bool.and_eq_true]
          exact ⟨hp, hwfr⟩
        · by_cases hpm : p.1 = "_meta" <;> simp [lookupVal, hpm, hlv]
        · intro g
          by_cases hg : p.1 = g
          · have hgk : ¬g = k := fun hh => hpk (hg.trans hh)
            simp [lookupGroup, hg, hgk]
          · simp [lookupGroup, hg, hlg g]

/-- The push sequence of one list-mode iteration, folded in order with the
crash short-circuit. -/
def pushAll : Groups → List String → Option String → Option Groups
  | data, [], _ => some data
  | data, k :: ks, el =>
      match push data k el with
      | none => none
      | some d => pushAll d ks el

theorem pushAll_append (el : Option String) (l1 l2 : List String) :
    ∀ data, pushAll data (l1 ++ l2) el =
      match pushAll data l1 el with
      | none => none
      | some d => pushAll d l2 el := by
  induction l1 with
  | nil => intro data; rfl
  | cons k ks ih =>
      intro data
      show (match push data k el with
        | none => none
        | some d => pushAll d (ks ++ l2) el) = _
      cases hp : push data k el with
      | none => simp [pushAll, hp]
      | some d => simp [pushAll, hp, ih d]

theorem pushAll_falsy (el : Option String) (h : truthy el = false) :
    ∀ (ts : List String) (data : Groups), pushAll data ts el = some data
  | [], data => rfl
  | t :: ts, data => by
      simp only [pushAll, push_falsy data t el h]
      exact pushAll_falsy el h ts data

theorem foldlM_push_eq_pushAll (el : Option String) :
    ∀ (md : List (String × String)) (g1 : Groups),
      List.foldlM (fun g kv => push g (tagKey kv) el) g1 md =
        pushAll g1 (md.map tagKey) el
  | [], g1 => rfl
  | kv :: rest, g1 => by
      rw [List.foldlM_cons]
      show (push g1 (tagKey kv) el).bind
          (fun b => List.foldlM (fun g kv => push g (tagKey kv) el) b rest) = _
      cases hp : push g1 (tagKey kv) el with
      | none => simp [pushAll, hp]
      | some d =>
          simp only [List.map_cons, pushAll, hp, Option.some_bind]
          exact foldlM_push_eq_pushAll el rest d

/-- The group keys a server's iteration pushes into, in push order: the raw
name, one sanitized tag key per metadata entry, and the metadata group
(default `undefined`). -/
def pushTargets (server : Server) : List String :=
  server.name :: (server.metadata.map tagKey ++ [groupName server])

theorem listModeStep_eq_pushAll (prefer_private : Bool) (data : Groups) (s : Server) :
    listModeStep prefer_private data s =
      match pushAll data (pushTargets s) (get_ips prefer_private s) with
      | none => none
      | some g3 => setHostvar g3 (get_ips prefer_private s) (get_metadata s) := by
  show (match push data s.name (get_ips prefer_private s) with
    | none => none
    | some g1 =>
        match List.foldlM (fun g kv => push g (tagKey kv) (get_ips prefer_private s)) g1
            s.metadata with
        | none => none
        | some g2 =>
            match push g2 (groupName s) (get_ips prefer_private s) with
            | none => none
            | some g3 => setHostvar g3 (get_ips prefer_private s) (get_metadata s)) = _
  rw [show pushTargets s = s.name :: (s.metadata.map tagKey ++ [groupName s]) from rfl]
  simp only [pushAll]
  cases hp1 : push data s.name (get_ips prefer_private s) with
  | none => rfl
  | some g1 =>
      show (match List.foldlM (fun g kv => push g (tagKey kv) (get_ips prefer_private s)) g1
          s.metadata with
        | none => none
        | some g2 =>
            match push g2 (groupName s) (get_ips prefer_private s) with
            | none => none
            | some g3 => setHostvar g3 (get_ips prefer_private s) (get_metadata s)) =
        match pushAll g1 (s.metadata.map tagKey ++ [groupName s])
            (get_ips prefer_private s) with
        | none => none
        | some g3 => setHostvar g3 (get_ips prefer_private s) (get_metadata s)
      rw [foldlM_push_eq_pushAll, pushAll_append]
      cases hp2 : pushAll g1 (s.metadata.map tagKey) (get_ips prefer_private s) with
      | none => rfl
      | some g2 =>
          show _ = match pushAll g2 [groupName s] (get_ips prefer_private s) with
            | none => none
            | some g3 => setHostvar g3 (get_ips prefer_private s) (get_metadata s)
          simp only [pushAll]
          cases hp3 : push g2 (groupName s) (get_ips prefer_private s) with
          | none => rfl
          | some g3 => rfl

theorem length_to_safe (w : String) : (to_safe w).length = w.length := by
  show (w.toList.map fun c => if safeChar c then c else '_').length = w.length
  rw [List.length_map]
  rfl

theorem tagKey_ne_empty (kv : String × String) : tagKey kv ≠ "" := by
  intro h
  have hlen := congrArg String.length h
  rw [tagKey, length_to_safe] at hlen
  simp [String.length_append] at hlen
  exact absurd hlen.1.1.1 (by decide)

theorem tagKey_ne_meta (kv : String × String) : tagKey kv ≠ "_meta" := by
  intro h
  have hh : (tagKey kv).toList.headD ' ' = ("_meta" : String).toList.headD ' ' :=
    congrArg (fun s : String => s.toList.headD ' ') h
  have ht : (tagKey kv).toList.headD ' ' = 't' := rfl
  rw [ht] at hh
  exact absurd hh (by decide)

theorem pushAll_lookup (a : String) (ha : a ≠ "") :
    ∀ (ts : List String) (data : Groups),
      (∀ t ∈ ts, t ≠ "" ∧ t ≠ "_meta") → metaOnlyAtMeta data = true →
      ∃ d', pushAll data ts (some a) = some d' ∧
        metaOnlyAtMeta d' = true ∧
        lookupVal d' "_meta" = lookupVal data "_meta" ∧
        ∀ g, lookupGroup d' g = lookupGroup data g ++ List.replicate (ts.count g) a
  | [], data, _, hwf => ⟨data, rfl, hwf, rfl, by simp⟩
  | t :: ts, data, hts, hwf => by
      obtain ⟨ht1, ht2⟩ := hts t (List.mem_cons_self t ts)
      obtain ⟨d1, hd1, hwf1, hlv1, hlg1⟩ := pushAux_lookup t a ht2 data hwf
      obtain ⟨d', hd', hwf', hlv', hlg'⟩ :=
        pushAll_lookup a ha ts d1 (fun x hx => hts x (List.mem_cons_of_mem t hx)) hwf1
      refine ⟨d', ?_, hwf', hlv'.trans hlv1, ?_⟩
      · simp only [pushAll, push_some_truthy data t a ha ht1, hd1]
        exact hd'
      · intro g
        rw [hlg' g, hlg1 g]
        by_cases hgt : g = t
        · rw [if_pos hgt, List.count_cons]
          simp [hgt, List.replicate_succ]
        · rw [if_neg hgt, List.count_cons]
          have : ¬(t == g) = true := by simpa using fun hh => hgt hh.symm
          simp [this]

theorem setHostvar_ok (key : Option String) (md : List (String × String))
    (hv : List (Option String × List (String × String))) :
    ∀ data : Groups, lookupVal data "_meta" = some (GroupsVal.meta hv) →
      ∃ d', setHostvar data key md = some d' ∧
        lookupVal d' "_meta" = some (GroupsVal.meta (assocSetHV hv key md)) ∧
        ∀ g, lookupGroup d' g = lookupGroup data g
  | [], h => by simp [lookupVal] at h
  | p :: rest, h => by
      by_cases hpm : p.1 = "_meta"
      · have hv2 : p.2 = GroupsVal.meta hv := by
          have := h
          simp only [lookupVal, hpm, if_pos] at this
          simpa using this
        refine ⟨(p.1, GroupsVal.meta (assocSetHV hv key md)) :: rest, ?_, ?_, ?_⟩
        · simp [setHostvar, hpm, hv2]
        · simp [lookupVal, hpm]
        · intro g
          by_cases hg : p.1 = g
          · simp [lookupGroup, hg, hv2]
          · simp [lookupGroup, hg]
      · have h' : lookupVal rest "_meta" = some (GroupsVal.meta hv) := by
          simpa [lookupVal, hpm] using h
        obtain ⟨r', hr, hlv, hlg⟩ := setHostvar_ok key md hv rest h'
        refine ⟨p :: r', ?_, ?_, ?_⟩
        · simp [setHostvar, hpm, hr]
        · simp [lookupVal, hpm, hlv]
        · intro g
          by_cases hg : p.1 = g <;> simp [lookupGroup, hg, hlg g]

/-- C5 (amended): a server with a present (truthy) access address, whose
name and effective group key are non-empty and distinct from the reserved
`_meta` key, makes the iteration succeed and pushes that address into
exactly the groups of `pushTargets`: every group key's address list gains
one copy of the address per occurrence among the targets, and every other
group is untouched. -/
theorem list_mode_group_pushes (prefer_private : Bool) (data : Groups)
    (hv : List (Option String × List (String × String))) (s : Server) (a : String)
    (ha : get_ips prefer_private s = some a) (ha' : a ≠ "")
    (hname : s.name ≠ "") (hnameM : s.name ≠ "_meta")
    (hgroup : groupName s ≠ "") (hgroupM : groupName s ≠ "_meta")
    (hwf : metaOnlyAtMeta data = true)
    (hmeta : lookupVal data "_meta" = some (GroupsVal.meta hv)) :
    ∃ data', listModeStep prefer_private data s = some data' ∧
      ∀ g, lookupGroup data' g =
        lookupGroup data g ++ List.replicate ((pushTargets s).count g) a := by
  have htargets : ∀ t ∈ pushTargets s, t ≠ "" ∧ t ≠ "_meta" := by
    intro t ht
    rcases List.mem_cons.mp ht with h | h
    · exact ⟨h ▸ hname, h ▸ hnameM⟩
    · rcases List.mem_append.mp h with h | h
      · rcases List.mem_map.mp h with ⟨kv, _, hkv⟩
        exact ⟨hkv ▸ tagKey_ne_empty kv, hkv ▸ tagKey_ne_meta kv⟩
      · rcases List.mem_singleton.mp h with h
        exact ⟨h ▸ hgroup, h ▸ hgroupM⟩
  obtain ⟨d3, hd3, hwf3, hlv3, hlg3⟩ :=
    pushAll_lookup a ha' (pushTargets s) data htargets hwf
  obtain ⟨d4, hd4, hlv4, hlg4⟩ :=
    setHostvar_ok (some a) (get_metadata s) hv d3 (hlv3.trans hmeta)
  refine ⟨d4, ?_, ?_⟩
  · rw [listModeStep_eq_pushAll, ha, hd3]
    exact hd4
  · intro g
    rw [hlg4 g, hlg3 g]

/-- The `api1` grouping example: metadata `group=web`, `env=prod`. -/
def srvApi : Server := ⟨"api1", "10.0.0.5", [], [("group", "web"), ("env", "prod")], []⟩

/-- Witness for C5 at the example server, starting from the initial dict. -/
theorem list_mode_group_pushes_witness :
    get_ips false srvApi = some "10.0.0.5" ∧
      ∃ data', listModeStep false initGroups srvApi = some data' ∧
        ∀ g, lookupGroup data' g =
          lookupGroup initGroups g ++
            List.replicate ((pushTargets srvApi).count g) "10.0.0.5" :=
  ⟨by decide,
    list_mode_group_pushes false initGroups [] srvApi "10.0.0.5" (by decide) (by decide)
      (by decide) (by decide) (by decide) (by decide) (by decide) rfl⟩
end Nova

namespace Nova

/-! ### Absent access addresses in list mode -/

theorem lookupHV_assocSetHV (k : Option String) (v : List (String × String)) :
    ∀ l, lookupHV (assocSetHV l k v) k = some v
  | [] => by simp [assocSetHV, lookupHV]
  | p :: rest => by
      by_cases h : p.1 = k
      · simp [assocSetHV, lookupHV, h]
      · simp [assocSetHV, lookupHV, h, lookupHV_assocSetHV k v rest]

theorem listModeStep_absent (prefer_private : Bool) (data : Groups) (s : Server)
    (h : get_ips prefer_private s = none) :
    listModeStep prefer_private data s = setHostvar data none (get_metadata s) := by
  rw [listModeStep_eq_pushAll, h, pushAll_falsy none rfl (pushTargets s) data]

/-- C6 (amended): a server whose access address comes out `None` keeps every
group's address list untouched, yet its flattened metadata is still written
into the `_meta` hostvars map under the `None` key; a second `None`-address
server also leaves the groups alone, lands on the same hostvars key and
overwrites the first one's entry. -/
theorem list_mode_absent_address (prefer_private : Bool) (data : Groups)
    (hv : List (Option String × List (String × String))) (s1 s2 : Server)
    (h1 : get_ips prefer_private s1 = none) (h2 : get_ips prefer_private s2 = none)
    (hmeta : lookupVal data "_meta" = some (GroupsVal.meta hv)) :
    ∃ data1 data2,
      listModeStep prefer_private data s1 = some data1 ∧
      listModeStep prefer_private data1 s2 = some data2 ∧
      (∀ g, lookupGroup data1 g = lookupGroup data g) ∧
      (∀ g, lookupGroup data2 g = lookupGroup data g) ∧
      getHostvars data2 =
        some (assocSetHV (assocSetHV hv none (get_metadata s1)) none (get_metadata s2)) ∧
      lookupHV (assocSetHV (assocSetHV hv none (get_metadata s1)) none (get_metadata s2))
          none =
        some (get_metadata s2) := by
  obtain ⟨d1, hd1, hlv1, hlg1⟩ := setHostvar_ok none (get_metadata s1) hv data hmeta
  obtain ⟨d2, hd2, hlv2, hlg2⟩ :=
    setHostvar_ok none (get_metadata s2) (assocSetHV hv none (get_metadata s1)) d1 hlv1
  refine ⟨d1, d2, (listModeStep_absent prefer_private data s1 h1).trans hd1,
    (listModeStep_absent prefer_private d1 s2 h2).trans hd2, hlg1,
    fun g => (hlg2 g).trans (hlg1 g), ?_,
    lookupHV_assocSetHV none (get_metadata s2) _⟩
  show (match lookupVal d2 "_meta" with
    | some (GroupsVal.meta hv) => some hv
    | _ => none) = _
  rw [hlv2]

/-- Two address-less servers, used to exercise the absent-address path. -/
def srvBare1 : Server := ⟨"b1", "", [], [], [("id", "b1")]⟩

def srvBare2 : Server := ⟨"b2", "", [], [], [("id", "b2")]⟩

/-- Witness for C6 at two concrete address-less servers, starting from the
initial dict. -/
theorem list_mode_absent_address_witness :
    get_ips false srvBare1 = none ∧ get_ips false srvBare2 = none ∧
      ∃ data1 data2,
        listModeStep false initGroups srvBare1 = some data1 ∧
        listModeStep false data1 srvBare2 = some data2 ∧
        (∀ g, lookupGroup data1 g = lookupGroup initGroups g) ∧
        (∀ g, lookupGroup data2 g = lookupGroup initGroups g) ∧
        getHostvars data2 =
          some (assocSetHV (assocSetHV [] none (get_metadata srvBare1)) none
            (get_metadata srvBare2)) ∧
        lookupHV (assocSetHV (assocSetHV [] none (get_metadata srvBare1)) none
            (get_metadata srvBare2)) none =
          some (get_metadata srvBare2) :=
  ⟨by decide, by decide,
    list_mode_absent_address false initGroups [] srvBare1 srvBare2 (by decide) (by decide)
      rfl⟩

end Nova

namespace Nova

/-! ### The metadata flattener `get_metadata` -/

/-- The key rewrite as the specification words it: EVERY non-alphanumeric
character (hyphens included) becomes an underscore, then lowercase, then the
`os_` prefix. Written from the spec's words, for comparison with `metaKey`. -/
def specMetaKey (key : String) : String :=
  "os_" ++ lowerStr (String.mk (key.toList.map (fun c => if c.isAlphanum then c else '_')))

/-- The flattener as the specification words it: drop the attribute that is
the manager handle, rewrite every other key with `specMetaKey`, keep values. -/
def specFlattened (server : Server) : List (String × String) :=
  (server.attrs.filter (fun kv => kv.1 != "manager")).map
    (fun kv => (specMetaKey kv.1, kv.2))

/-- A server carrying the spec's example attribute. -/
def srvVm : Server := ⟨"vm", "1.2.3.4", [], [], [("OS-EXT-STS:vm_state", "active")]⟩

/-- Counterexample to C2 as stated: the sanitizer keeps hyphens, so attribute
`OS-EXT-STS:vm_state` becomes key `os_os-ext-sts_vm_state`, not the
`os_os_ext_sts_vm_state` the spec announces. -/
theorem get_metadata_counterexample :
    get_metadata srvVm = [("os_os-ext-sts_vm_state", "active")] ∧
      specFlattened srvVm = [("os_os_ext_sts_vm_state", "active")] ∧
      get_metadata srvVm ≠ specFlattened srvVm := by
  decide

/-- The attributes `get_metadata` keeps: those whose rewritten key is not
`os_manager`. -/
def keptAttrs (attrs : List (String × String)) : List (String × String) :=
  attrs.filter (fun kv => decide (metaKey kv.1 ≠ "os_manager"))

theorem assocSetS_notMem (k v : String) :
    ∀ l : List (String × String), k ∉ l.map Prod.fst → assocSetS l k v = l ++ [(k, v)]
  | [] => fun _ => rfl
  | p :: rest => fun h => by
      rw [List.map_cons] at h
      have hne : ¬p.1 = k := fun hh => h (hh ▸ List.mem_cons_self p.1 (rest.map Prod.fst))
      simp only [assocSetS, if_neg hne, List.cons_append]
      rw [assocSetS_notMem k v rest (fun hm => h (List.mem_cons_of_mem _ hm))]

theorem get_metadata_fold :
    ∀ (attrs acc : List (String × String)),
      ((keptAttrs attrs).map (fun kv => metaKey kv.1)).Nodup →
      (∀ kv ∈ attrs, metaKey kv.1 ≠ "os_manager" → metaKey kv.1 ∉ acc.map Prod.fst) →
      attrs.foldl
          (fun results kv =>
            if metaKey kv.1 = "os_manager" then results
            else assocSetS results (metaKey kv.1) kv.2) acc =
        acc ++ (keptAttrs attrs).map (fun kv => (metaKey kv.1, kv.2))
  | [], acc, _, _ => by simp [keptAttrs]
  | kv :: rest, acc, hnd, hacc => by
      by_cases h : metaKey kv.1 = "os_manager"
      · rw [List.foldl_cons, if_pos h]
        have hdrop : keptAttrs (kv :: rest) = keptAttrs rest := by
          simp [keptAttrs, List.filter_cons, h]
        rw [hdrop] at hnd ⊢
        exact get_metadata_fold rest acc hnd
          (fun kv' hm' => hacc kv' (List.mem_cons_of_mem kv hm'))
      · have hkeep : keptAttrs (kv :: rest) = kv :: keptAttrs rest := by
          simp [keptAttrs, List.filter_cons, h]
        rw [List.foldl_cons, if_neg h]
        rw [assocSetS_notMem _ _ acc (hacc kv (List.mem_cons_self kv rest) h)]
        rw [hkeep] at hnd ⊢
        rw [List.map_cons] at hnd
        have hhead := (List.nodup_cons.mp hnd).1
        have htail := (List.nodup_cons.mp hnd).2
        rw [get_metadata_fold rest (acc ++ [(metaKey kv.1, kv.2)]) htail ?_]
        · simp [List.append_assoc]
        · intro kv' hm' hne' hmem
          rw [List.map_append] at hmem
          rcases List.mem_append.mp hmem with hin | hin
          · exact hacc kv' (List.mem_cons_of_mem kv hm') hne' hin
          · have heq : metaKey kv'.1 = metaKey kv.1 := by simpa using hin
            apply hhead
            rw [← heq]
            have hmemf : kv' ∈ keptAttrs rest :=
              List.mem_filter.mpr ⟨hm', decide_eq_true hne'⟩
            exact List.mem_map.mpr ⟨kv', hmemf, rfl⟩

/-- C2 (amended): for every server whose kept attributes have pairwise
distinct rewritten keys, the flattener is exactly: drop the attributes whose
rewritten key is `os_manager` (the adapter's manager handle), rewrite each
other key with `metaKey` (non-alphanumeric, non-hyphen characters to
underscore, lowercase, `os_` prefix — hyphens are kept), value unchanged. -/
theorem get_metadata_flattens (s : Server)
    (hnd : ((keptAttrs s.attrs).map (fun kv => metaKey kv.1)).Nodup) :
    get_metadata s = (keptAttrs s.attrs).map (fun kv => (metaKey kv.1, kv.2)) := by
  have hfold := get_metadata_fold s.attrs [] hnd (by intro kv _ _; simp)
  simpa [get_metadata] using hfold

/-- Witness for the amended C2 at the concrete example server. -/
theorem get_metadata_flattens_witness :
    ((keptAttrs srvVm.attrs).map (fun kv => metaKey kv.1)).Nodup ∧
      get_metadata srvVm = (keptAttrs srvVm.attrs).map (fun kv => (metaKey kv.1, kv.2)) :=
  ⟨by decide, get_metadata_flattens srvVm (by decide)⟩

end Nova

namespace Nova

/-! ### Host mode and argument dispatch -/

theorem host_branch_fold (prefer_private : Bool) (q : String) :
    ∀ (servers : List Server) (acc : List (String × String)),
      servers.foldl
          (fun results s =>
            if pyMatch q (get_ips prefer_private s) then get_metadata s else results) acc =
        (((servers.filter (fun s => pyMatch q (get_ips prefer_private s))).getLast?).map
            get_metadata).getD acc
  | [], acc => by simp
  | s :: rest, acc => by
      by_cases hm : pyMatch q (get_ips prefer_private s) = true
      · have hf : List.filter (fun s => pyMatch q (get_ips prefer_private s)) (s :: rest) =
            s :: List.filter (fun s => pyMatch q (get_ips prefer_private s)) rest :=
          List.filter_cons_of_pos hm
        rw [List.foldl_cons, if_pos hm,
          host_branch_fold prefer_private q rest (get_metadata s), hf, List.getLast?_cons]
        cases hL : (rest.filter (fun s => pyMatch q (get_ips prefer_private s))).getLast? with
        | none => simp [hL]
        | some x => simp [hL]
      · have hf : List.filter (fun s => pyMatch q (get_ips prefer_private s)) (s :: rest) =
            List.filter (fun s => pyMatch q (get_ips prefer_private s)) rest :=
          List.filter_cons_of_neg (by simpa using hm)
        rw [List.foldl_cons, if_neg hm,
          host_branch_fold prefer_private q rest acc, hf]

/-- C10: the host-mode document is the flattened metadata of the LAST server
(in adapter order) whose present access address CONTAINS the query as a
substring (`pyMatch`), and `{}` when no server matches; absent or empty
addresses never match. -/
theorem host_mode_substring_last_match (prefer_private : Bool) (servers : List Server)
    (q : String) :
    host_branch prefer_private servers q =
      (((servers.filter (fun s => pyMatch q (get_ips prefer_private s))).getLast?).map
          get_metadata).getD [] :=
  host_branch_fold prefer_private q servers []

/-- Host mode as the specification words it: the FIRST server whose computed
access address EQUALS the query, or `{}`. Written from the spec's words, for
comparison with the code's `host_branch`. -/
def specHostFirstEqual (prefer_private : Bool) (servers : List Server) (q : String) :
    List (String × String) :=
  ((servers.find? (fun s => get_ips prefer_private s == some q)).map get_metadata).getD []

/-- Two servers sharing one access address but different attributes. -/
def srvDup1 : Server := ⟨"a", "10.0.0.2", [], [], [("id", "1")]⟩

def srvDup2 : Server := ⟨"b", "10.0.0.2", [], [], [("id", "2")]⟩

/-- Counterexample to C1 as stated: with two servers on the same address,
host mode emits the LAST matching server's metadata, not the first's. -/
theorem host_mode_counterexample :
    main_dispatch false [srvDup1, srvDup2] ["nova.py", "--host", "10.0.0.2"] =
        Outcome.hostdoc [("os_id", "2")] 0 ∧
      specHostFirstEqual false [srvDup1, srvDup2] "10.0.0.2" = [("os_id", "1")] ∧
      main_dispatch false [srvDup1, srvDup2] ["nova.py", "--host", "10.0.0.2"] ≠
        Outcome.hostdoc (specHostFirstEqual false [srvDup1, srvDup2] "10.0.0.2") 0 := by
  decide

/-- C1 (amended): a `--host` invocation with one address argument emits, with
exit code 0, the flattened metadata of the last server whose present access
address contains the argument as a substring, or `{}` when none matches. -/
theorem host_mode_amended (prefer_private : Bool) (servers : List Server)
    (prog addr : String) :
    main_dispatch prefer_private servers [prog, "--host", addr] =
      Outcome.hostdoc
        (((servers.filter (fun s => pyMatch addr (get_ips prefer_private s))).getLast?.map
            get_metadata).getD [])
        0 := by
  rw [main_dispatch, if_neg (by simp), if_pos (by exact ⟨rfl, rfl⟩)]
  exact congrArg (fun d => Outcome.hostdoc d 0) (host_branch_fold prefer_private addr servers [])

/-- C9: any argument shape that is not empty, not the single `--list` flag
and not `--host` with exactly one value prints the usage line and exits 1. -/
theorem dispatch_usage (prefer_private : Bool) (servers : List Server) (prog : String)
    (args : List String) (h1 : args ≠ []) (h2 : args ≠ ["--list"])
    (h3 : ∀ a : String, args ≠ ["--host", a]) :
    main_dispatch prefer_private servers (prog :: args) = Outcome.usage usage_message 1 := by
  match args, h1, h2, h3 with
  | [], h1, _, _ => exact absurd rfl h1
  | [a], _, h2, _ =>
      have ha : ¬a = "--list" := fun hh => h2 (by rw [hh])
      rw [main_dispatch, if_neg (by simp [ha]), if_neg (by simp)]
  | [a, b], _, _, h3 =>
      have ha : ¬a = "--host" := fun hh => h3 b (by rw [hh])
      rw [main_dispatch, if_neg (by simp), if_neg (by simp [ha])]
  | a :: b :: c :: rest, _, _, _ =>
      rw [main_dispatch, if_neg ?hc1, if_neg ?hc2]
      case hc1 => rintro (⟨hl, _⟩ | hl) <;> (simp only [List.length_cons] at hl; omega)
      case hc2 => rintro ⟨hl, _⟩; simp only [List.length_cons] at hl; omega

/-- Witness for C9: three unrecognized arguments yield usage and exit 1. -/
theorem dispatch_usage_witness :
    main_dispatch false [] ["nova.py", "a", "b", "c"] = Outcome.usage usage_message 1 :=
  dispatch_usage false [] "nova.py" ["a", "b", "c"] (by decide) (by decide)
    (by intro a h; injection h with hh _; exact absurd hh (by decide))

end Nova

namespace Nova

/-- A server with an empty name and a present access address. -/
def srvNoName : Server := ⟨"", "10.0.0.9", [], [], []⟩

/-- A server named `_meta`, colliding with the reserved groups key. -/
def srvMetaName : Server := ⟨"_meta", "10.0.0.7", [], [], []⟩

/-- Counterexample to C5 as stated. Two concrete servers with present access
addresses defeat the unqualified "pushed into exactly these groups": a
server with an empty name gets no push into the group named by its raw name
(`push` skips falsy keys), and a server named `_meta` makes the push hit the
reserved `_meta` dict entry, raising AttributeError and killing the run
(`listModeStep` yields `none`), so no grouping happens at all. -/
theorem list_mode_group_pushes_counterexample :
    get_ips false srvNoName = some "10.0.0.9" ∧
      listModeStep false initGroups srvNoName =
        some [("_meta", GroupsVal.meta [(some "10.0.0.9", [])]),
          ("undefined", GroupsVal.addrs ["10.0.0.9"])] ∧
      lookupGroup [("_meta", GroupsVal.meta [(some "10.0.0.9", [])]),
          ("undefined", GroupsVal.addrs ["10.0.0.9"])] srvNoName.name = [] ∧
      get_ips false srvMetaName = some "10.0.0.7" ∧
      listModeStep false initGroups srvMetaName = none := by
  decide

/-- A server whose only address is an empty-string floating address, so its
selected access address is the falsy string `""` rather than `None`. -/
def srvEmptyStr : Server := ⟨"e", "", [("net", [⟨some "floating", ""⟩])], [], [("id", "e")]⟩

/-- Counterexample to C6 as stated: two servers with absent (falsy) access
addresses need not collide on one hostvars key — a `None` selector result
and an empty-string selector result are distinct keys, so the later
absent-address server does not overwrite the earlier one's entry. -/
theorem list_mode_absent_address_counterexample :
    get_ips false srvBare1 = none ∧
      get_ips false srvEmptyStr = some "" ∧
      truthy (get_ips false srvEmptyStr) = false ∧
      ((listModeStep false initGroups srvBare1).bind
          (fun d => listModeStep false d srvEmptyStr)).bind
          (fun d => (getHostvars d).bind (fun hvs => lookupHV hvs none)) =
        some (get_metadata srvBare1) ∧
      get_metadata srvBare1 ≠ get_metadata srvEmptyStr := by
  decide

end Nova
